import Mathlib

/-!
Formal model of `build_questions.py`: a single-pass parser that converts a
categorized plain-text question bank into a structured question set
(`QUESTION_SETS` in the generated `questions.js`).

The embedding is shallow and executable:
* lines of the input file are a `List String` (Python `splitlines`);
* Python string primitives (`strip`, `lower`, `startswith`, `split(",")`,
  `" ".join`) are modelled by `pyStrip`, `pyLower`, `pyStarts`,
  `pySplitComma`, `joinSpace`, with `Char.isWhitespace` as the whitespace
  class;
* the three regular expressions (`QUESTION_RE`, the option-line pattern and
  `CORRECT_RE`) are modelled by `questionMatch`, `optionMatch` and
  `correctMatch`, faithful to Python `re.match` (prefix-anchored,
  backtracking) semantics on newline-free lines;
* the `while` loop of `parse_category` advances a cursor that strictly
  decreases the remaining-line count on every outer iteration, so it is
  modelled by `parseCatFuel`, structurally recursive on a fuel argument
  that `parse_category` instantiates at `lines.length + 1`, a bound the
  loop can never exhaust;
* the console `print` of the `[WARN] ... no 'Options:' line` branch is
  modelled by the `warned` component of `ParseResult`; the two returned
  Python values are the `out` and `skipped` components;
* Python exceptions (in the reachable pure fragment: `ord` applied to a
  string whose length is not 1, in `main`'s letter-to-index step) abort the
  run with no output; they are modelled by `Option`, `none` meaning the run
  aborts before writing the output artifact.
-/

/-- Python `str.strip()`: drop leading and trailing whitespace. -/
def pyStrip (s : String) : String :=
  ⟨((s.data.dropWhile Char.isWhitespace).reverse.dropWhile Char.isWhitespace).reverse⟩

/-- Python `str.lower()` (ASCII model, as used on the `Options` marker). -/
def pyLower (s : String) : String := ⟨s.data.map Char.toLower⟩

/-- Python `s.startswith(pre)`. -/
def pyStarts (s pre : String) : Bool := pre.data.isPrefixOf s.data

/-- Truthiness test `not lines[i].strip()`: a line is blank iff it strips to `""`. -/
def isBlank (s : String) : Bool := pyStrip s == ""

/-- Match a literal pattern (given lower-case) case-insensitively at the head,
returning the remainder of the input on success. -/
def dropPrefixCI : List Char → List Char → Option (List Char)
| [], cs => some cs
| _ :: _, [] => none
| p :: ps, c :: cs => if c.toLower = p then dropPrefixCI ps cs else none

/-- Match a literal pattern case-sensitively at the head, returning the
remainder of the input on success. -/
def dropPrefixCS : List Char → List Char → Option (List Char)
| [], cs => some cs
| _ :: _, [] => none
| p :: ps, c :: cs => if c = p then dropPrefixCS ps cs else none

/-- Numeric value of a digit run, as `int(m.group(1))` computes it. -/
def digitsVal (ds : List Char) : Nat :=
  ds.foldl (fun a c => a * 10 + (c.toNat - 48)) 0

/-- Model of `QUESTION_RE.match(line)` for `^Question\s+(\d+):` —
literal `Question`, one or more whitespace characters, a digit run
(captured, returned as its numeric value), then a colon; the rest of the
line is ignored (`re.match` only anchors the prefix). -/
def questionMatch (line : String) : Option Nat :=
  match dropPrefixCS "Question".data line.data with
  | none => none
  | some cs =>
    let ws := cs.takeWhile Char.isWhitespace
    let cs2 := cs.dropWhile Char.isWhitespace
    let ds := cs2.takeWhile Char.isDigit
    let cs3 := cs2.dropWhile Char.isDigit
    if ws.isEmpty then none
    else if ds.isEmpty then none
    else
      match cs3 with
      | ':' :: _ => some (digitsVal ds)
      | _ => none

/-- Model of `re.match(r'^\s*([A-Z])\.\s*(.*)', line)`: optional leading
whitespace, a single uppercase ASCII letter, a period, optional whitespace,
then the rest of the line as group 2 (returned raw; the caller strips it). -/
def optionMatch (line : String) : Option (Char × String) :=
  match line.data.dropWhile Char.isWhitespace with
  | c :: '.' :: rest2 =>
    if 'A' ≤ c ∧ c ≤ 'Z' then some (c, ⟨rest2.dropWhile Char.isWhitespace⟩)
    else none
  | _ => none

/-- Everything after the first colon of the input, if a colon occurs. -/
def afterColon : List Char → Option (List Char)
| [] => none
| c :: cs => if c = ':' then some cs else afterColon cs

/-- Model of `CORRECT_RE.match(line)` for
`^\s*Correct\s+Answer[s]?\s*\(?.*?\)?:\s*(.+)$` with `re.IGNORECASE`.
After optional leading whitespace, `Correct` (case-insensitive), mandatory
whitespace, `Answer` (case-insensitive), the lazy middle `[s]?\s*\(?.*?\)?:`
consumes exactly through the first colon of the remainder; the match then
requires at least one further character, and group 1 is that remainder less
its leading whitespace (backtracking keeps one character when the remainder
is all whitespace). -/
def correctMatch (line : String) : Option String :=
  match dropPrefixCI "correct".data (line.data.dropWhile Char.isWhitespace) with
  | none => none
  | some cs1 =>
    if (cs1.takeWhile Char.isWhitespace).isEmpty then none
    else
      match dropPrefixCI "answer".data (cs1.dropWhile Char.isWhitespace) with
      | none => none
      | some t =>
        match afterColon t with
        | none => none
        | some r =>
          if r.isEmpty then none
          else
            some ⟨r.drop (min (r.takeWhile Char.isWhitespace).length (r.length - 1))⟩

/-- Python `s.split(",")` on the character level (never returns `[]`;
splitting the empty string yields `[[]]`). -/
def splitCommaCh : List Char → List (List Char)
| [] => [[]]
| c :: cs =>
  let r := splitCommaCh cs
  if c = ',' then [] :: r
  else (c :: r.headD []) :: r.tail

/-- Python `part.split(",")`. -/
def pySplitComma (s : String) : List String := (splitCommaCh s.data).map (⟨·⟩)

/-- Python `" ".join(xs)`. -/
def joinSpace : List String → String
| [] => ""
| [x] => x
| x :: y :: xs => x ++ " " ++ joinSpace (y :: xs)

/-- One parsed question block, as `parse_category` accumulates it:
the dict `{"num", "question", "options", "correct_letters"}`. -/
structure RawQuestion where
  num : Nat
  question : String
  options : List (Char × String)
  correct_letters : List String
deriving Repr, DecidableEq

/-- Result of `parse_category`: the returned pair `(out, skipped)` plus the
ordinals whose blocks were reported by the `[WARN] ... no 'Options:' line`
console message (`warned` models those prints). -/
structure ParseResult where
  out : List RawQuestion
  skipped : List Nat
  warned : List Nat
deriving Repr, DecidableEq

/-- The `while i < len(lines)` loop of `parse_category`. Every outer
iteration strictly shortens the remaining suffix of `lines`, so one unit of
fuel per remaining line (plus one) is enough; `parse_category` supplies it. -/
def parseCatFuel : Nat → List String → ParseResult
| 0, _ => ⟨[], [], []⟩
| _ + 1, [] => ⟨[], [], []⟩
| fuel + 1, l :: rest =>
  match questionMatch l with
  | none => parseCatFuel fuel rest
  | some num =>
    let s1 := rest.dropWhile isBlank
    let qlines := s1.takeWhile (fun s => !isBlank s)
    let question := pyStrip (joinSpace (qlines.map pyStrip))
    let s3 := (s1.dropWhile (fun s => !isBlank s)).dropWhile isBlank
    match s3 with
    | [] => ⟨[], [], [num]⟩
    | optLine :: s4 =>
      if !(pyStarts (pyLower (pyStrip optLine)) "options") then
        let r := parseCatFuel fuel (optLine :: s4)
        ⟨r.out, r.skipped, num :: r.warned⟩
      else
        let run := s4.takeWhile (fun s => !isBlank s)
        let opts := run.filterMap (fun s => (optionMatch s).map (fun p => (p.1, pyStrip p.2)))
        let s6 := (s4.dropWhile (fun s => !isBlank s)).dropWhile isBlank
        match s6 with
        | [] => ⟨[⟨num, question, opts, []⟩], [num], []⟩
        | aLine :: s7 =>
          match correctMatch aLine with
          | some g =>
            let part := pyStrip g
            let letters := ((pySplitComma part).map pyStrip).filter (fun p => !(p == ""))
            let r := parseCatFuel fuel s7
            ⟨⟨num, question, opts, letters⟩ :: r.out, r.skipped, r.warned⟩
          | none =>
            let r := parseCatFuel fuel (aLine :: s7)
            ⟨⟨num, question, opts, []⟩ :: r.out, num :: r.skipped, r.warned⟩

/-- `parse_category(lines, cat_name)` (the category name only labels console
messages, so it is not a parameter of the model). -/
def parse_category (lines : List String) : ParseResult :=
  parseCatFuel (lines.length + 1) lines

/-- `cat_indices`: indices of lines starting with `CATEGORY:`, plus
`len(raw_lines)` as a final sentinel. -/
def catIndices (raw : List String) : List Nat :=
  ((List.range raw.length).filter (fun i => pyStarts (raw.getD i "") "CATEGORY:")) ++ [raw.length]

/-- The `categories` / `skipped_by_cat` construction loop: each segment
`(start, end)` contributes the pair (trimmed name after the first colon of
the header, parse of `raw_lines[start+1:end]`), in segment order. Later
entries overwrite earlier ones on lookup, like the Python dict assignment. -/
def segTable (raw : List String) : List (String × ParseResult) :=
  ((catIndices raw).zip (catIndices raw).tail).map (fun p =>
    let header := raw.getD p.1 ""
    let name := pyStrip ⟨(afterColon header.data).getD []⟩
    let body := (raw.drop (p.1 + 1)).take (p.2 - (p.1 + 1))
    (name, parse_category body))

/-- Python dict lookup with last-assignment-wins semantics. -/
def dictGet (tbl : List (String × ParseResult)) (k : String) : Option ParseResult :=
  (tbl.reverse.find? (fun p => p.1 == k)).map Prod.snd

/-- `categories.get(cat_name, [])`. -/
def categoriesGet (raw : List String) (name : String) : List RawQuestion :=
  match dictGet (segTable raw) name with
  | some r => r.out
  | none => []

/-- `skipped_by_cat.get(cat_name)`, defaulted to `[]`. -/
def skippedGet (raw : List String) (name : String) : List Nat :=
  match dictGet (segTable raw) name with
  | some r => r.skipped
  | none => []

/-- The `correct` field of an emitted record: a bare integer when exactly
one letter was recorded, otherwise the list of indices. -/
inductive CorrectVal where
  | single : Int → CorrectVal
  | multi : List Int → CorrectVal
deriving Repr, DecidableEq

/-- `indices[0] if len(indices) == 1 else indices`. -/
def collapse : List Int → CorrectVal
| [i] => .single i
| is => .multi is

/-- `ord(letter) - ord("A")`. Python `ord` demands a single character, so a
token whose length is not 1 raises `TypeError` and aborts the run: `none`. -/
def letterIndex (s : String) : Option Int :=
  match s.data with
  | [c] => some ((c.toNat : Int) - ('A'.toNat : Int))
  | _ => none

/-- One record of the generated `QUESTION_SETS` structure. -/
structure JsQuestion where
  id : Nat
  question : String
  options : List String
  correct : CorrectVal
deriving Repr, DecidableEq

/-- Map a fallible function over a list, aborting at the first failure —
the exception-propagation model of Python `for` loops. -/
def mapOption {α β : Type} (f : α → Option β) : List α → Option (List β)
| [] => some []
| x :: xs => (f x).bind (fun y => (mapOption f xs).map (fun ys => y :: ys))

/-- The per-question body of `main`'s output loop for a question that
survives the `correct_letters` filter: letter-to-index conversion (which can
abort), collapse, and record construction. -/
def buildJsQ (q : RawQuestion) : Option JsQuestion :=
  match mapOption letterIndex q.correct_letters with
  | none => none
  | some indices => some ⟨q.num, q.question, q.options.map Prod.snd, collapse indices⟩

/-- `main`'s `for q in qlist` loop: skip questions with no recorded answer
letters, convert the rest, abort the run if any conversion raises. -/
def processQlist : List RawQuestion → Option (List JsQuestion)
| [] => some []
| q :: qs =>
  if q.correct_letters.isEmpty then processQlist qs
  else
    match buildJsQ q with
    | none => none
    | some jq =>
      match processQlist qs with
      | none => none
      | some rest => some (jq :: rest)

/-- The static category-name-to-key table, in source order. -/
def mapping : List (String × String) :=
  [("CSA EXAM QUESTIONS", "csa"),
   ("SKILLCERT QUESTIONS", "skillcert"),
   ("YOUTUBE DUMPS", "youtube"),
   ("OTHER SOURCES 1 QUESTIONS", "other")]

/-- `js_obj`, the structure serialized into `questions.js`, keyed in
`mapping` order; `none` models a run aborted by an exception before the
output artifact is written. -/
def js_obj (raw : List String) : Option (List (String × List JsQuestion)) :=
  mapOption (fun p => (processQlist (categoriesGet raw p.1)).map (fun js => (p.2, js))) mapping

/-- The list of indices carried by a `correct` field. -/
def correctIdx : CorrectVal → List Int
| .single i => [i]
| .multi is => is

/-- The zero-based alphabet position the source computes for a letter. -/
def alphabetIndex (c : Char) : Int := (c.toNat : Int) - ('A'.toNat : Int)

/-! ## General lemmas about the embedding's combinators -/

theorem mapOption_congr {α β : Type} {f g : α → Option β} :
    ∀ {l : List α}, (∀ a ∈ l, f a = g a) → mapOption f l = mapOption g l
  | [], _ => rfl
  | a :: as, h => by
    have ha := h a (by simp)
    have ih := mapOption_congr (f := f) (g := g) (l := as) (fun x hx => h x (by simp [hx]))
    simp only [mapOption, ha, ih]

theorem mapOption_forall₂ {α β : Type} {f : α → Option β} :
    ∀ {l : List α} {bs : List β}, mapOption f l = some bs →
      List.Forall₂ (fun a b => f a = some b) l bs
  | [], bs, h => by
    simp only [mapOption, Option.some.injEq] at h
    subst h; exact List.Forall₂.nil
  | x :: xs, bs, h => by
    simp only [mapOption] at h
    rcases Option.bind_eq_some.mp h with ⟨y, hfx, h2⟩
    rcases Option.map_eq_some'.mp h2 with ⟨ys, hrec, rfl⟩
    exact List.Forall₂.cons hfx (mapOption_forall₂ hrec)

theorem mapOption_mem {α β : Type} {f : α → Option β} {l : List α} {bs : List β}
    (h : mapOption f l = some bs) : ∀ b ∈ bs, ∃ a ∈ l, f a = some b := by
  induction l generalizing bs with
  | nil =>
    simp only [mapOption, Option.some.injEq] at h
    subst h; intro b hb; simp at hb
  | cons x xs ih =>
    intro b hb
    simp only [mapOption] at h
    rcases Option.bind_eq_some.mp h with ⟨y, hfx, h2⟩
    rcases Option.map_eq_some'.mp h2 with ⟨ys, hrec, rfl⟩
    rcases List.mem_cons.mp hb with rfl | hb'
    · exact ⟨x, by simp, hfx⟩
    · rcases ih hrec b hb' with ⟨a', ha', hfa'⟩
      exact ⟨a', by simp [ha'], hfa'⟩

theorem mapOption_total {α β : Type} {f : α → Option β} :
    ∀ {l : List α}, (∀ a ∈ l, ∃ b, f a = some b) → ∃ bs, mapOption f l = some bs
  | [], _ => ⟨[], rfl⟩
  | a :: as, h => by
    rcases h a (by simp) with ⟨b, hb⟩
    rcases mapOption_total (l := as) (fun x hx => h x (by simp [hx])) with ⟨bs, hbs⟩
    exact ⟨b :: bs, by simp [mapOption, hb, hbs]⟩

theorem letterIndex_some {s : String} {i : Int} (h : letterIndex s = some i) :
    ∃ c : Char, s.data = [c] ∧ i = alphabetIndex c := by
  unfold letterIndex at h
  cases hd : s.data with
  | nil => rw [hd] at h; exact absurd h (by simp)
  | cons c cs =>
    cases cs with
    | nil => rw [hd] at h; exact ⟨c, rfl, by simpa [alphabetIndex] using h.symm⟩
    | cons c' cs' => rw [hd] at h; exact absurd h (by simp)

theorem letterIndex_total {s : String} (h : s.data.length = 1) :
    ∃ i, letterIndex s = some i := by
  cases hd : s.data with
  | nil => rw [hd] at h; simp at h
  | cons c cs =>
    cases cs with
    | nil => exact ⟨(c.toNat : Int) - ('A'.toNat : Int), by simp [letterIndex, hd]⟩
    | cons c' cs' => rw [hd] at h; simp at h

theorem correctIdx_collapse : ∀ is : List Int, correctIdx (collapse is) = is
  | [] => rfl
  | [_] => rfl
  | _ :: _ :: _ => rfl

theorem buildJsQ_eq {q : RawQuestion} {jq : JsQuestion} (h : buildJsQ q = some jq) :
    ∃ is, mapOption letterIndex q.correct_letters = some is ∧
      jq = ⟨q.num, q.question, q.options.map Prod.snd, collapse is⟩ := by
  unfold buildJsQ at h
  cases hm : mapOption letterIndex q.correct_letters with
  | none => rw [hm] at h; exact absurd h (by simp)
  | some is =>
    rw [hm] at h
    simp only [Option.some.injEq] at h
    exact ⟨is, rfl, h.symm⟩

theorem buildJsQ_bounded {q : RawQuestion} {jq : JsQuestion}
    (h : buildJsQ q = some jq)
    (hin : ∀ s ∈ q.correct_letters, s.data.length = 1 ∧
      ∀ c ∈ s.data, alphabetIndex c < (q.options.length : Int)) :
    jq.options.length = q.options.length ∧
      ∀ i ∈ correctIdx jq.correct, i < (jq.options.length : Int) := by
  rcases buildJsQ_eq h with ⟨is, him, rfl⟩
  refine ⟨by simp, ?_⟩
  intro i hi
  rw [correctIdx_collapse] at hi
  rcases mapOption_mem him i hi with ⟨s, hs, hsi⟩
  rcases letterIndex_some hsi with ⟨c, hc, rfl⟩
  have := (hin s hs).2 c (by simp [hc])
  simpa using this

theorem processQlist_mem {qs : List RawQuestion} {js : List JsQuestion}
    (h : processQlist qs = some js) :
    ∀ q ∈ qs, q.correct_letters ≠ [] → ∃ jq ∈ js, buildJsQ q = some jq := by
  induction qs generalizing js with
  | nil => intro q hq; simp at hq
  | cons q0 qs ih =>
    intro q hq hne
    simp only [processQlist] at h
    by_cases he : q0.correct_letters.isEmpty
    · rw [if_pos he] at h
      rcases List.mem_cons.mp hq with rfl | hq'
      · exact absurd (List.isEmpty_iff.mp he) hne
      · exact ih h q hq' hne
    · rw [if_neg he] at h
      cases hb : buildJsQ q0 with
      | none => rw [hb] at h; exact absurd h (by simp)
      | some jq0 =>
        rw [hb] at h
        cases hr : processQlist qs with
        | none => rw [hr] at h; exact absurd h (by simp)
        | some rest =>
          rw [hr] at h
          simp only [Option.some.injEq] at h
          subst h
          rcases List.mem_cons.mp hq with rfl | hq'
          · exact ⟨jq0, by simp, hb⟩
          · rcases ih hr q hq' hne with ⟨jq, hjq, hjq2⟩
            exact ⟨jq, by simp [hjq], hjq2⟩

theorem processQlist_sound {qs : List RawQuestion} {js : List JsQuestion}
    (h : processQlist qs = some js) :
    ∀ jq ∈ js, ∃ q ∈ qs, buildJsQ q = some jq := by
  induction qs generalizing js with
  | nil =>
    intro jq hjq
    simp only [processQlist, Option.some.injEq] at h
    subst h; simp at hjq
  | cons q0 qs ih =>
    intro jq hjq
    simp only [processQlist] at h
    by_cases he : q0.correct_letters.isEmpty
    · rw [if_pos he] at h
      rcases ih h jq hjq with ⟨q, hq, hq2⟩
      exact ⟨q, by simp [hq], hq2⟩
    · rw [if_neg he] at h
      cases hb : buildJsQ q0 with
      | none => rw [hb] at h; exact absurd h (by simp)
      | some jq0 =>
        rw [hb] at h
        cases hr : processQlist qs with
        | none => rw [hr] at h; exact absurd h (by simp)
        | some rest =>
          rw [hr] at h
          simp only [Option.some.injEq] at h
          subst h
          rcases List.mem_cons.mp hjq with rfl | hjq'
          · exact ⟨q0, by simp, hb⟩
          · rcases ih hr jq hjq' with ⟨q, hq, hq2⟩
            exact ⟨q, by simp [hq], hq2⟩

theorem processQlist_ids {qs : List RawQuestion} {js : List JsQuestion}
    (h : processQlist qs = some js) :
    js.map JsQuestion.id =
      (qs.filter (fun q => !q.correct_letters.isEmpty)).map RawQuestion.num := by
  induction qs generalizing js with
  | nil =>
    simp only [processQlist, Option.some.injEq] at h
    subst h; rfl
  | cons q0 qs ih =>
    simp only [processQlist] at h
    by_cases he : q0.correct_letters.isEmpty
    · rw [if_pos he] at h
      rw [List.filter_cons, if_neg (by simp [he])]
      exact ih h
    · rw [if_neg he] at h
      cases hb : buildJsQ q0 with
      | none => rw [hb] at h; exact absurd h (by simp)
      | some jq0 =>
        rw [hb] at h
        cases hr : processQlist qs with
        | none => rw [hr] at h; exact absurd h (by simp)
        | some rest =>
          rw [hr] at h
          simp only [Option.some.injEq] at h
          subst h
          rcases buildJsQ_eq hb with ⟨is, _, rfl⟩
          rw [List.filter_cons, if_pos (by simpa using he)]
          simpa using ih hr

theorem processQlist_erase {q : RawQuestion} (hq : q.correct_letters = []) :
    ∀ pre post, processQlist (pre ++ q :: post) = processQlist (pre ++ post) := by
  intro pre post
  induction pre with
  | nil =>
    simp only [List.nil_append, processQlist]
    rw [if_pos (by simp [hq])]
  | cons p pre ih =>
    simp only [List.cons_append, processQlist, List.append_eq, ih]

theorem processQlist_total :
    ∀ {qs : List RawQuestion}, (∀ q ∈ qs, ∀ s ∈ q.correct_letters, s.data.length = 1) →
      ∃ js, processQlist qs = some js
  | [], _ => ⟨[], rfl⟩
  | q :: qs, h => by
    rcases @processQlist_total qs (fun x hx => h x (by simp [hx])) with ⟨js, hjs⟩
    by_cases he : q.correct_letters.isEmpty
    · exact ⟨js, by simp [processQlist, he, hjs]⟩
    · have : ∃ is, mapOption letterIndex q.correct_letters = some is :=
        mapOption_total (fun s hs => letterIndex_total (h q (by simp) s hs))
      rcases this with ⟨is, his⟩
      exact ⟨⟨q.num, q.question, q.options.map Prod.snd, collapse is⟩ :: js,
        by simp [processQlist, he, buildJsQ, his, hjs]⟩

theorem js_obj_mem {raw : List String} {o : List (String × List JsQuestion)}
    (h : js_obj raw = some o) :
    ∀ e ∈ o, ∃ p ∈ mapping, processQlist (categoriesGet raw p.1) = some e.2 ∧ e.1 = p.2 := by
  intro e he
  rcases mapOption_mem h e he with ⟨p, hp, hpe⟩
  rcases Option.map_eq_some'.mp hpe with ⟨js, hjs, rfl⟩
  exact ⟨p, hp, hjs, rfl⟩

theorem length_filterMap_map_countP {α β γ : Type} (g : α → Option β) (f : β → γ) :
    ∀ l : List α, (l.filterMap (fun a => (g a).map f)).length =
      l.countP (fun a => (g a).isSome)
  | [] => rfl
  | a :: l => by
    rw [List.filterMap_cons, List.countP_cons]
    cases hga : g a with
    | none => simp [length_filterMap_map_countP g f l, hga]
    | some b => simp [length_filterMap_map_countP g f l, hga]

theorem forall2_map_eq {α β γ : Type} {R : α → β → Prop} {f : α → γ} {g : β → γ} :
    ∀ {l : List α} {l' : List β}, List.Forall₂ R l l' → (∀ a b, R a b → f a = g b) →
      l.map f = l'.map g
  | _, _, List.Forall₂.nil, _ => rfl
  | _, _, List.Forall₂.cons hab h, himp => by
    simp only [List.map_cons, himp _ _ hab, forall2_map_eq h himp]

theorem find?_append_none {α : Type} {p : α → Bool} {l₁ l₂ : List α}
    (h : ∀ x ∈ l₁, p x = false) : (l₁ ++ l₂).find? p = l₂.find? p := by
  induction l₁ with
  | nil => rfl
  | cons a l ih =>
    rw [List.cons_append, List.find?_cons, h a (by simp)]
    exact ih (fun x hx => h x (by simp [hx]))

/-! ## Concrete inputs used by counterexamples and witnesses -/

/-- The round-trip scenario input of the specification (§8), line by line. -/
def roundTripInput : List String :=
  ["CATEGORY: CSA EXAM QUESTIONS", "Question 1:", "What is 2+2?", "",
   "Options:", "A. 3", "B. 4", "C. 5", "", "Correct Answer: B"]

/-- A well-formed block whose answer letter `B` is out of range for its
single option. -/
def outOfRangeInput : List String :=
  ["CATEGORY: CSA EXAM QUESTIONS", "Question 1:", "What is 2+2?", "",
   "Options:", "A. 3", "", "Correct Answer: B"]

/-- A block whose answer line matches `CORRECT_RE` but carries the
two-character token `AB`, on which `ord` raises. -/
def crashInput : List String :=
  ["CATEGORY: CSA EXAM QUESTIONS", "Question 1:", "Pick", "",
   "Options:", "A. x", "", "Correct Answer: AB"]

/-- A category absent from the static name-to-key table, holding one fully
valid question. -/
def unmappedInput : List String :=
  ["CATEGORY: UNKNOWN CAT", "Question 1:", "Q?", "",
   "Options:", "A. x", "", "Correct Answer: A"]

/-- Two segments with the same category name, each with one valid question. -/
def dupCategoryInput : List String :=
  ["CATEGORY: CSA EXAM QUESTIONS", "Question 1:", "First", "",
   "Options:", "A. x", "", "Correct Answer: A",
   "CATEGORY: CSA EXAM QUESTIONS", "Question 2:", "Second", "",
   "Options:", "A. x", "", "Correct Answer: A"]

/-! ## Claims -/

/-- C1, counterexample: on `outOfRangeInput` (a well-formed block: prompt,
`Options:` marker, one matched option line, and an answer line matching the
answer-key pattern with letter `B`) the output record has `correct = 1` and
a single option, so its correct index is not less than the length of its
options list. -/
theorem C1_counterexample :
    js_obj outOfRangeInput =
      some [("csa", [⟨1, "What is 2+2?", ["3"], CorrectVal.single 1⟩]),
            ("skillcert", []), ("youtube", []), ("other", [])]
    ∧ correctIdx (CorrectVal.single 1) = [1]
    ∧ ¬ ((1 : Int) < ((["3"] : List String).length : Int)) := by
  refine ⟨by decide, rfl, by decide⟩

/-- C1 (amended): the in-range proviso the code silently assumes is made
explicit. (a) If every recorded answer letter of every question in a mapped
category is a single character whose alphabet index is below that question's
option count, then every index in every output record's `correct` field is
less than the length of its options list. (b) For every well-formed question
block at the scan position (prompt, `Options` marker, option lines, and an
answer line matching the answer-key pattern), the parse emits exactly one
record for the block, whose options length equals the number of matched
option lines, and whenever that record survives the filter its correct
indices are below that length under the same in-range condition on its
letters. -/
theorem C1_bounded_indices
    (raw : List String)
    (hin : ∀ p ∈ mapping, ∀ q ∈ categoriesGet raw p.1, ∀ s ∈ q.correct_letters,
        s.data.length = 1 ∧ ∀ c ∈ s.data, alphabetIndex c < (q.options.length : Int)) :
    (∀ o, js_obj raw = some o → ∀ e ∈ o, ∀ jq ∈ e.2, ∀ i ∈ correctIdx jq.correct,
        i < (jq.options.length : Int))
    ∧ (∀ (fuel : Nat) (l : String) (rest s1 s3 s4 run s6 s7 : List String)
        (num : Nat) (optLine aLine g : String),
        questionMatch l = some num →
        rest.dropWhile isBlank = s1 →
        (s1.dropWhile (fun s => !isBlank s)).dropWhile isBlank = s3 →
        s3 = optLine :: s4 →
        pyStarts (pyLower (pyStrip optLine)) "options" = true →
        s4.takeWhile (fun s => !isBlank s) = run →
        (s4.dropWhile (fun s => !isBlank s)).dropWhile isBlank = s6 →
        s6 = aLine :: s7 →
        correctMatch aLine = some g →
        ∃ q : RawQuestion,
          parseCatFuel (fuel + 1) (l :: rest) =
            ⟨q :: (parseCatFuel fuel s7).out, (parseCatFuel fuel s7).skipped,
              (parseCatFuel fuel s7).warned⟩
          ∧ q.num = num
          ∧ q.options.length = run.countP (fun s => (optionMatch s).isSome)
          ∧ ∀ jq, buildJsQ q = some jq →
              (∀ s ∈ q.correct_letters, s.data.length = 1 ∧
                ∀ c ∈ s.data, alphabetIndex c < (q.options.length : Int)) →
              jq.options.length = q.options.length ∧
              ∀ i ∈ correctIdx jq.correct, i < (jq.options.length : Int)) := by
  constructor
  · intro o ho e he jq hjq i hi
    rcases js_obj_mem ho e he with ⟨p, hp, hproc, _⟩
    rcases processQlist_sound hproc jq hjq with ⟨q, hq, hb⟩
    exact (buildJsQ_bounded hb (fun s hs => hin p hp q hq s hs)).2 i hi
  · intro fuel l rest s1 s3 s4 run s6 s7 num optLine aLine g
    intro hq hs1 hs3 hopt hmark hrun hs6 hans hcm
    refine ⟨⟨num,
      pyStrip (joinSpace ((s1.takeWhile (fun s => !isBlank s)).map pyStrip)),
      run.filterMap (fun s => (optionMatch s).map (fun p => (p.1, pyStrip p.2))),
      ((pySplitComma (pyStrip g)).map pyStrip).filter (fun p => !(p == ""))⟩,
      ?_, rfl, ?_, ?_⟩
    · simp only [parseCatFuel, hq]
      rw [hs1, hs3, hopt]
      simp only [hmark, Bool.not_true, Bool.false_eq_true, if_false]
      rw [hrun, hs6, hans]
      simp [hcm]
    · exact length_filterMap_map_countP _ _ run
    · intro jq hjq hin2
      exact buildJsQ_bounded hjq hin2

/-- C1 witness: on the round-trip input the in-range hypothesis holds and
the bound on correct indices follows by the theorem. -/
theorem C1_bounded_indices_witness :
    (∀ p ∈ mapping, ∀ q ∈ categoriesGet roundTripInput p.1, ∀ s ∈ q.correct_letters,
        s.data.length = 1 ∧ ∀ c ∈ s.data, alphabetIndex c < (q.options.length : Int))
    ∧ (∀ o, js_obj roundTripInput = some o → ∀ e ∈ o, ∀ jq ∈ e.2,
        ∀ i ∈ correctIdx jq.correct, i < (jq.options.length : Int)) :=
  ⟨by decide, (C1_bounded_indices roundTripInput (by decide)).1⟩

/-- C2, counterexample: on the round-trip input the generated structure is
not the single-key object the claim demands — the three other mapped keys
are always present. -/
theorem C2_counterexample :
    js_obj roundTripInput ≠
      some [("csa", [⟨1, "What is 2+2?", ["3", "4", "5"], CorrectVal.single 1⟩])] := by
  decide

/-- C2 (amended): on the round-trip input the generated structure is exactly
the `csa` record the claim describes together with the other three mapped
keys bound to empty lists, in mapping order. -/
theorem C2_roundtrip_all_keys :
    js_obj roundTripInput =
      some [("csa", [⟨1, "What is 2+2?", ["3", "4", "5"], CorrectVal.single 1⟩]),
            ("skillcert", []), ("youtube", []), ("other", [])] := by
  decide

/-- C3, counterexample: an answer line matching the answer-key pattern whose
content after the colon is the two-character token `AB` aborts the run
(Python `ord` raises `TypeError` in the letter-to-index step), so parsing
and filtering do not complete normally on every input. -/
theorem C3_counterexample : js_obj crashInput = none := by decide

/-- C3 (amended): missing `Options` markers, missing or unparseable answer
keys and unmapped categories are non-fatal; the run completes normally on
every input whose recorded answer tokens (in questions of mapped
categories) are each a single character. Arbitrary content after a matched
`Correct Answer` colon is fatal exactly when it yields a token whose length
is not 1. -/
theorem C3_total_single_char
    (raw : List String)
    (hsingle : ∀ p ∈ mapping, ∀ q ∈ categoriesGet raw p.1, ∀ s ∈ q.correct_letters,
        s.data.length = 1) :
    ∃ o, js_obj raw = some o := by
  unfold js_obj
  apply mapOption_total
  intro p hp
  rcases processQlist_total (fun q hq s hs => hsingle p hp q hq s hs) with ⟨js, hjs⟩
  exact ⟨(p.2, js), by simp [hjs]⟩

/-- C3 witness: the round-trip input satisfies the single-character
condition and the run completes on it. -/
theorem C3_total_single_char_witness :
    (∀ p ∈ mapping, ∀ q ∈ categoriesGet roundTripInput p.1, ∀ s ∈ q.correct_letters,
        s.data.length = 1)
    ∧ ∃ o, js_obj roundTripInput = some o :=
  ⟨by decide, C3_total_single_char roundTripInput (by decide)⟩

/-- C4: a block with a valid `Options` section whose following line (or end
of input, both covered by the `head?` hypothesis) does not match the
answer-key pattern is parsed into a record with an empty answer-letter set
that the scan retains, its ordinal is prepended to the missing-answer
diagnostic list, and the filter step later removes exactly that record from
any question list containing it. -/
theorem C4_missing_answer_block
    (fuel : Nat) (l : String) (rest s1 s3 s4 s6 : List String) (num : Nat) (optLine : String)
    (hq : questionMatch l = some num)
    (hs1 : rest.dropWhile isBlank = s1)
    (hs3 : (s1.dropWhile (fun s => !isBlank s)).dropWhile isBlank = s3)
    (hopt : s3 = optLine :: s4)
    (hmark : pyStarts (pyLower (pyStrip optLine)) "options" = true)
    (hs6 : (s4.dropWhile (fun s => !isBlank s)).dropWhile isBlank = s6)
    (hno : ∀ a ∈ s6.head?, correctMatch a = none) :
    ∃ q : RawQuestion,
      parseCatFuel (fuel + 1) (l :: rest) =
        ⟨q :: (parseCatFuel fuel s6).out, num :: (parseCatFuel fuel s6).skipped,
          (parseCatFuel fuel s6).warned⟩
      ∧ q.num = num ∧ q.correct_letters = []
      ∧ ∀ pre post, processQlist (pre ++ q :: post) = processQlist (pre ++ post) := by
  refine ⟨⟨num,
    pyStrip (joinSpace ((s1.takeWhile (fun s => !isBlank s)).map pyStrip)),
    (s4.takeWhile (fun s => !isBlank s)).filterMap
      (fun s => (optionMatch s).map (fun p => (p.1, pyStrip p.2))), []⟩, ?_, rfl, rfl, ?_⟩
  · simp only [parseCatFuel, hq]
    rw [hs1, hs3, hopt]
    simp only [hmark, Bool.not_true, Bool.false_eq_true, if_false]
    rw [hs6]
    cases s6 with
    | nil => cases fuel <;> simp [parseCatFuel]
    | cons a s7 =>
      have hf := hno a (by simp)
      simp [hf]
  · exact processQlist_erase rfl

/-- C4 witness: a concrete block (`Question 3`) with one option and the
non-matching line `not an answer` behind it. -/
theorem C4_missing_answer_block_witness :
    (questionMatch "Question 3:" = some 3
      ∧ ["Huh?", "", "Options:", "A. x", "", "not an answer"].dropWhile isBlank =
          ["Huh?", "", "Options:", "A. x", "", "not an answer"]
      ∧ correctMatch "not an answer" = none)
    ∧ ∃ q : RawQuestion,
        parseCatFuel 7 ["Question 3:", "Huh?", "", "Options:", "A. x", "", "not an answer"] =
          ⟨q :: (parseCatFuel 6 ["not an answer"]).out,
            3 :: (parseCatFuel 6 ["not an answer"]).skipped,
            (parseCatFuel 6 ["not an answer"]).warned⟩
        ∧ q.num = 3 ∧ q.correct_letters = []
        ∧ ∀ pre post, processQlist (pre ++ q :: post) = processQlist (pre ++ post) :=
  ⟨⟨by decide, by decide, by decide⟩,
    C4_missing_answer_block 6 "Question 3:"
      ["Huh?", "", "Options:", "A. x", "", "not an answer"]
      ["Huh?", "", "Options:", "A. x", "", "not an answer"]
      ["Options:", "A. x", "", "not an answer"]
      ["A. x", "", "not an answer"]
      ["not an answer"]
      3 "Options:"
      (by decide) (by decide) (by decide) (by decide) (by decide) (by decide) (by decide)⟩

/-- C5: for a question with a non-empty recorded answer-letter list kept by
a successful filter run, the emitted record carries `collapse` of the
letter indices — a bare integer for one letter, the ordered index sequence
otherwise — and each index is its letter's zero-based alphabet position. -/
theorem C5_letter_indices
    (qs : List RawQuestion) (js : List JsQuestion) (q : RawQuestion) (is : List Int)
    (hq : q ∈ qs)
    (hp : processQlist qs = some js)
    (hne : q.correct_letters ≠ [])
    (his : mapOption letterIndex q.correct_letters = some is) :
    (∃ jq ∈ js, jq.id = q.num ∧ jq.question = q.question
      ∧ jq.options = q.options.map Prod.snd ∧ jq.correct = collapse is)
    ∧ List.Forall₂ (fun (s : String) (i : Int) => ∃ c, s.data = [c] ∧ i = alphabetIndex c)
        q.correct_letters is
    ∧ (∀ i, is = [i] → collapse is = CorrectVal.single i)
    ∧ (1 < is.length → collapse is = CorrectVal.multi is) := by
  refine ⟨?_, ?_, ?_, ?_⟩
  · rcases processQlist_mem hp q hq hne with ⟨jq, hjq, hb⟩
    rcases buildJsQ_eq hb with ⟨is', his', rfl⟩
    rw [his] at his'
    cases his'
    exact ⟨_, hjq, rfl, rfl, rfl, rfl⟩
  · exact (mapOption_forall₂ his).imp (fun s i hsi => by
      rcases letterIndex_some hsi with ⟨c, hc, rfl⟩
      exact ⟨c, hc, rfl⟩)
  · intro i hi; rw [hi]; rfl
  · intro hlen
    match is, hlen with
    | a :: b :: t, _ => rfl

/-- C5 witness: the multi-select key `Correct Answers: A, C` over three
options yields the ordered index sequence `[0, 2]`. -/
theorem C5_letter_indices_witness :
    (⟨7, "Pick two", [('A', "x"), ('B', "y"), ('C', "z")], ["A", "C"]⟩ ∈
        ([⟨7, "Pick two", [('A', "x"), ('B', "y"), ('C', "z")], ["A", "C"]⟩] :
          List RawQuestion)
      ∧ processQlist [⟨7, "Pick two", [('A', "x"), ('B', "y"), ('C', "z")], ["A", "C"]⟩] =
          some [⟨7, "Pick two", ["x", "y", "z"], CorrectVal.multi [0, 2]⟩]
      ∧ mapOption letterIndex ["A", "C"] = some [0, 2])
    ∧ ∃ jq ∈ ([⟨7, "Pick two", ["x", "y", "z"], CorrectVal.multi [0, 2]⟩] : List JsQuestion),
        jq.id = 7 ∧ jq.question = "Pick two"
        ∧ jq.options = ([('A', "x"), ('B', "y"), ('C', "z")] : List (Char × String)).map Prod.snd
        ∧ jq.correct = collapse [0, 2] :=
  ⟨⟨by decide, by decide, by decide⟩,
    (C5_letter_indices
      [⟨7, "Pick two", [('A', "x"), ('B', "y"), ('C', "z")], ["A", "C"]⟩]
      [⟨7, "Pick two", ["x", "y", "z"], CorrectVal.multi [0, 2]⟩]
      ⟨7, "Pick two", [('A', "x"), ('B', "y"), ('C', "z")], ["A", "C"]⟩
      [0, 2]
      (by decide) (by decide) (by decide) (by decide)).1⟩

/-- C6: a block whose header matched but with no recognizable `Options`
marker at the post-prompt position (including end of input, via the
`head?` hypothesis) contributes nothing to the parse output or the
missing-answer list, prepends its ordinal to the warning log, and scanning
resumes exactly at the current position `s3`, a suffix of the unconsumed
lines. -/
theorem C6_missing_options_block
    (fuel : Nat) (l : String) (rest s1 s3 : List String) (num : Nat)
    (hq : questionMatch l = some num)
    (hs1 : rest.dropWhile isBlank = s1)
    (hs3 : (s1.dropWhile (fun s => !isBlank s)).dropWhile isBlank = s3)
    (hfail : ∀ o ∈ s3.head?, pyStarts (pyLower (pyStrip o)) "options" = false) :
    parseCatFuel (fuel + 1) (l :: rest) =
      ⟨(parseCatFuel fuel s3).out, (parseCatFuel fuel s3).skipped,
        num :: (parseCatFuel fuel s3).warned⟩
    ∧ s3.IsSuffix rest := by
  constructor
  · simp only [parseCatFuel, hq]
    rw [hs1, hs3]
    cases s3 with
    | nil => cases fuel <;> simp [parseCatFuel]
    | cons o s4 =>
      have hf := hfail o (by simp)
      simp [hf]
  · rw [← hs3, ← hs1]
    exact ((List.dropWhile_suffix _).trans (List.dropWhile_suffix _)).trans
      (List.dropWhile_suffix _)

/-- C6 witness: a concrete block (`Question 4`) whose post-prompt line is
`nope`, not an `Options` marker. -/
theorem C6_missing_options_block_witness :
    (questionMatch "Question 4:" = some 4
      ∧ pyStarts (pyLower (pyStrip "nope")) "options" = false)
    ∧ parseCatFuel 6 ["Question 4:", "Huh?", "", "nope", "", "Correct Answer: A"] =
        ⟨(parseCatFuel 5 ["nope", "", "Correct Answer: A"]).out,
          (parseCatFuel 5 ["nope", "", "Correct Answer: A"]).skipped,
          4 :: (parseCatFuel 5 ["nope", "", "Correct Answer: A"]).warned⟩
    ∧ List.IsSuffix ["nope", "", "Correct Answer: A"]
        ["Huh?", "", "nope", "", "Correct Answer: A"] :=
  ⟨⟨by decide, by decide⟩,
    (C6_missing_options_block 5 "Question 4:"
      ["Huh?", "", "nope", "", "Correct Answer: A"]
      ["Huh?", "", "nope", "", "Correct Answer: A"]
      ["nope", "", "Correct Answer: A"]
      4 (by decide) (by decide) (by decide) (by decide)).1,
    (C6_missing_options_block 5 "Question 4:"
      ["Huh?", "", "nope", "", "Correct Answer: A"]
      ["Huh?", "", "nope", "", "Correct Answer: A"]
      ["nope", "", "Correct Answer: A"]
      4 (by decide) (by decide) (by decide) (by decide)).2⟩

/-- C7: the generated structure is a pure function of the input lines (the
model is deterministic by construction, with no other inputs), and both
orders are stable and input-derived: whenever a run produces an output, its
entries correspond one-to-one, in order, to the static mapping table, and
each entry's question ids are exactly the parsed question ordinals of that
category in parse order, restricted to questions with a recorded answer. -/
theorem C7_deterministic_order
    (raw : List String) (o : List (String × List JsQuestion))
    (h : js_obj raw = some o) :
    List.Forall₂ (fun (p : String × String) (e : String × List JsQuestion) =>
        e.1 = p.2 ∧ e.2.map JsQuestion.id =
          ((categoriesGet raw p.1).filter (fun q => !q.correct_letters.isEmpty)).map
            RawQuestion.num)
      mapping o := by
  have h2 := mapOption_forall₂ h
  refine h2.imp ?_
  intro p e hpe
  rcases Option.map_eq_some'.mp hpe with ⟨js, hjs, rfl⟩
  exact ⟨rfl, processQlist_ids hjs⟩

/-- C7 witness: order correspondence on the round-trip input's output. -/
theorem C7_deterministic_order_witness :
    (js_obj roundTripInput =
      some [("csa", [⟨1, "What is 2+2?", ["3", "4", "5"], CorrectVal.single 1⟩]),
            ("skillcert", []), ("youtube", []), ("other", [])])
    ∧ List.Forall₂ (fun (p : String × String) (e : String × List JsQuestion) =>
        e.1 = p.2 ∧ e.2.map JsQuestion.id =
          ((categoriesGet roundTripInput p.1).filter
            (fun q => !q.correct_letters.isEmpty)).map RawQuestion.num)
        mapping
        [("csa", [⟨1, "What is 2+2?", ["3", "4", "5"], CorrectVal.single 1⟩]),
         ("skillcert", []), ("youtube", []), ("other", [])] :=
  ⟨by decide,
    C7_deterministic_order roundTripInput
      [("csa", [⟨1, "What is 2+2?", ["3", "4", "5"], CorrectVal.single 1⟩]),
       ("skillcert", []), ("youtube", []), ("other", [])]
      (by decide)⟩

/-- C8: the output is a function of the four mapped categories' parsed
question lists alone, so a category whose header name is not a key of the
static table contributes zero entries no matter how many valid questions it
holds; moreover every produced output is keyed exactly by the mapped keys,
in table order. -/
theorem C8_unmapped_dropped
    (raw raw' : List String)
    (h : ∀ p ∈ mapping, categoriesGet raw p.1 = categoriesGet raw' p.1) :
    js_obj raw = js_obj raw'
    ∧ ∀ o, js_obj raw = some o → o.map Prod.fst = mapping.map Prod.snd := by
  constructor
  · unfold js_obj
    exact mapOption_congr (fun p hp => by rw [h p hp])
  · intro o ho
    have h2 := mapOption_forall₂ ho
    refine (forall2_map_eq (f := Prod.snd) (g := Prod.fst) h2 ?_).symm
    intro p e hpe
    rcases Option.map_eq_some'.mp hpe with ⟨js, _, rfl⟩
    rfl

/-- C8 witness: an unmapped category holding a fully valid question yields
the same output as the empty input. -/
theorem C8_unmapped_dropped_witness :
    (∀ p ∈ mapping, categoriesGet [] p.1 = categoriesGet unmappedInput p.1)
    ∧ js_obj [] = js_obj unmappedInput :=
  ⟨by decide, (C8_unmapped_dropped [] unmappedInput (by decide)).1⟩

/-- C9: a block with an `Options` marker but zero lines matching the option
pattern is still parsed into a record with an empty options list (the head
of the parse output), and whenever its answer-letter list is non-empty and
the filter step completes, the record appears in the filtered output with
empty options — the no-correct-answer filter does not additionally drop
questions for having no options. -/
theorem C9_empty_options_retained
    (fuel : Nat) (l : String) (rest s1 s3 s4 : List String) (num : Nat) (optLine : String)
    (hq : questionMatch l = some num)
    (hs1 : rest.dropWhile isBlank = s1)
    (hs3 : (s1.dropWhile (fun s => !isBlank s)).dropWhile isBlank = s3)
    (hopt : s3 = optLine :: s4)
    (hmark : pyStarts (pyLower (pyStrip optLine)) "options" = true)
    (hzero : ∀ x ∈ s4.takeWhile (fun s => !isBlank s), optionMatch x = none) :
    ∃ q : RawQuestion,
      (parseCatFuel (fuel + 1) (l :: rest)).out.head? = some q
      ∧ q.num = num ∧ q.options = []
      ∧ ∀ qs js, q ∈ qs → q.correct_letters ≠ [] → processQlist qs = some js →
          ∃ jq ∈ js, jq.id = num ∧ jq.options = [] ∧ jq.question = q.question := by
  have hopts : (s4.takeWhile (fun s => !isBlank s)).filterMap
      (fun s => (optionMatch s).map (fun p => (p.1, pyStrip p.2))) = [] := by
    rw [List.filterMap_eq_nil_iff]
    intro x hx
    simp [hzero x hx]
  have main : ∀ q : RawQuestion,
      q.num = num → q.options = [] →
      (∀ qs js, q ∈ qs → q.correct_letters ≠ [] → processQlist qs = some js →
        ∃ jq ∈ js, jq.id = num ∧ jq.options = [] ∧ jq.question = q.question) := by
    intro q hnum hopt0 qs js hmem hne hp
    rcases processQlist_mem hp q hmem hne with ⟨jq, hjq, hb⟩
    rcases buildJsQ_eq hb with ⟨is, _, rfl⟩
    exact ⟨_, hjq, by simp [hnum], by simp [hopt0], rfl⟩
  simp only [parseCatFuel, hq]
  rw [hs1, hs3, hopt]
  simp only [hmark, Bool.not_true, Bool.false_eq_true, if_false]
  rw [hopts]
  cases h6 : (s4.dropWhile (fun s => !isBlank s)).dropWhile isBlank with
  | nil =>
    exact ⟨⟨num, pyStrip (joinSpace ((s1.takeWhile (fun s => !isBlank s)).map pyStrip)),
      [], []⟩, by simp, rfl, rfl, main _ rfl rfl⟩
  | cons aLine s7 =>
    cases hcm : correctMatch aLine with
    | some g =>
      simp only [hcm]
      exact ⟨⟨num, pyStrip (joinSpace ((s1.takeWhile (fun s => !isBlank s)).map pyStrip)),
        [], ((pySplitComma (pyStrip g)).map pyStrip).filter (fun p => !(p == ""))⟩,
        by simp, rfl, rfl, main _ rfl rfl⟩
    | none =>
      simp only [hcm]
      exact ⟨⟨num, pyStrip (joinSpace ((s1.takeWhile (fun s => !isBlank s)).map pyStrip)),
        [], []⟩, by simp, rfl, rfl, main _ rfl rfl⟩

/-- C9 witness: a concrete block (`Question 9`) whose option run `1) x`,
`2) y` matches no option line, with a valid answer key `A`. -/
theorem C9_empty_options_retained_witness :
    (questionMatch "Question 9:" = some 9
      ∧ (∀ x ∈ (["1) x", "2) y", "", "Correct Answer: A"].takeWhile
          (fun s => !isBlank s)), optionMatch x = none))
    ∧ ∃ q : RawQuestion,
        (parseCatFuel 8 ["Question 9:", "Q?", "", "Options:", "1) x", "2) y", "",
          "Correct Answer: A"]).out.head? = some q
        ∧ q.num = 9 ∧ q.options = []
        ∧ ∀ qs js, q ∈ qs → q.correct_letters ≠ [] → processQlist qs = some js →
            ∃ jq ∈ js, jq.id = 9 ∧ jq.options = [] ∧ jq.question = q.question :=
  ⟨⟨by decide, by decide⟩,
    C9_empty_options_retained 7 "Question 9:"
      ["Q?", "", "Options:", "1) x", "2) y", "", "Correct Answer: A"]
      ["Q?", "", "Options:", "1) x", "2) y", "", "Correct Answer: A"]
      ["Options:", "1) x", "2) y", "", "Correct Answer: A"]
      ["1) x", "2) y", "", "Correct Answer: A"]
      9 "Options:"
      (by decide) (by decide) (by decide) (by decide) (by decide) (by decide)⟩

/-- C10: when the segment table contains an entry for `name` with no later
entry of the same name, lookups for `name` — the ones `main` uses to build
the output and the diagnostics — return exactly that entry's parse result:
each later duplicate segment overwrites earlier ones, so earlier segments'
questions never reach the output. -/
theorem C10_duplicate_category_last_wins
    (raw : List String) (pre post : List (String × ParseResult))
    (name : String) (r : ParseResult)
    (hseg : segTable raw = pre ++ (name, r) :: post)
    (hlast : ∀ e ∈ post, e.1 ≠ name) :
    categoriesGet raw name = r.out ∧ skippedGet raw name = r.skipped := by
  have hd : dictGet (segTable raw) name = some r := by
    unfold dictGet
    rw [hseg, List.reverse_append, List.reverse_cons, List.append_assoc]
    rw [find?_append_none (fun e he => beq_eq_false_iff_ne.mpr (hlast e (by simpa using he)))]
    rw [List.singleton_append, List.find?_cons_of_pos _ (by simp)]
    rfl
  constructor
  · unfold categoriesGet; rw [hd]
  · unfold skippedGet; rw [hd]

/-- C10 witness: two `CSA EXAM QUESTIONS` segments; only the second
segment's question (`Question 2`) survives the lookup. -/
theorem C10_duplicate_category_last_wins_witness :
    (segTable dupCategoryInput =
      [("CSA EXAM QUESTIONS", ⟨[⟨1, "First", [('A', "x")], ["A"]⟩], [], []⟩)] ++
        ("CSA EXAM QUESTIONS", ⟨[⟨2, "Second", [('A', "x")], ["A"]⟩], [], []⟩) :: [])
    ∧ categoriesGet dupCategoryInput "CSA EXAM QUESTIONS" =
        [⟨2, "Second", [('A', "x")], ["A"]⟩] :=
  ⟨by decide,
    (C10_duplicate_category_last_wins dupCategoryInput
      [("CSA EXAM QUESTIONS", ⟨[⟨1, "First", [('A', "x")], ["A"]⟩], [], []⟩)]
      []
      "CSA EXAM QUESTIONS"
      ⟨[⟨2, "Second", [('A', "x")], ["A"]⟩], [], []⟩
      (by decide) (by decide)).1⟩

/-- Fuel irrelevance: any fuel above the remaining line count yields the
same parse, certifying that `parse_category`'s choice `lines.length + 1`
faithfully renders the source's unbounded `while` loop. -/
theorem parseCatFuel_congr :
    ∀ (n f f' : Nat) (l : List String), l.length ≤ n → l.length < f → l.length < f' →
      parseCatFuel f l = parseCatFuel f' l := by
  intro n
  induction n with
  | zero =>
    intro f f' l hn hf hf'
    obtain rfl : l = [] := List.length_eq_zero.mp (Nat.le_zero.mp hn)
    obtain ⟨ff, rfl⟩ : ∃ k, f = k + 1 := ⟨f - 1, by omega⟩
    obtain ⟨ff', rfl⟩ : ∃ k, f' = k + 1 := ⟨f' - 1, by omega⟩
    rfl
  | succ n ih =>
    intro f f' l hn hf hf'
    obtain ⟨ff, rfl⟩ : ∃ k, f = k + 1 := ⟨f - 1, by omega⟩
    obtain ⟨ff', rfl⟩ : ∃ k, f' = k + 1 := ⟨f' - 1, by omega⟩
    cases l with
    | nil => rfl
    | cons x rest =>
      simp only [List.length_cons] at hn hf hf'
      have hrest : rest.length ≤ n := by omega
      have hrf : rest.length < ff := by omega
      have hrf' : rest.length < ff' := by omega
      simp only [parseCatFuel]
      cases hq : questionMatch x with
      | none => exact ih ff ff' rest hrest hrf hrf'
      | some num =>
        have hs3len : (((rest.dropWhile isBlank).dropWhile
            (fun s => !isBlank s)).dropWhile isBlank).length ≤ rest.length :=
          le_trans (List.dropWhile_suffix _).length_le
            (le_trans (List.dropWhile_suffix _).length_le
              (List.dropWhile_suffix _).length_le)
        cases h3 : ((rest.dropWhile isBlank).dropWhile
            (fun s => !isBlank s)).dropWhile isBlank with
        | nil => rfl
        | cons optLine s4 =>
          rw [h3] at hs3len
          simp only [List.length_cons] at hs3len
          by_cases hm : pyStarts (pyLower (pyStrip optLine)) "options"
          · simp only [hm, Bool.not_true, Bool.false_eq_true, if_false]
            have hs6len : ((s4.dropWhile (fun s => !isBlank s)).dropWhile
                isBlank).length ≤ s4.length :=
              le_trans (List.dropWhile_suffix _).length_le
                (List.dropWhile_suffix _).length_le
            cases h6 : (s4.dropWhile (fun s => !isBlank s)).dropWhile isBlank with
            | nil => rfl
            | cons aLine s7 =>
              rw [h6] at hs6len
              simp only [List.length_cons] at hs6len
              cases hcm : correctMatch aLine with
              | some g =>
                simp only [hcm]
                rw [ih ff ff' s7 (by omega) (by omega) (by omega)]
              | none =>
                simp only [hcm]
                rw [ih ff ff' (aLine :: s7) (by simp; omega) (by simp; omega)
                  (by simp; omega)]
          · simp only [hm, Bool.not_false, if_true]
            rw [ih ff ff' (optLine :: s4) (by simp; omega) (by simp; omega)
              (by simp; omega)]

/-- Any sufficient fuel computes `parse_category` itself. -/
theorem parse_category_fuel_stable (f : Nat) (l : List String) (hf : l.length < f) :
    parseCatFuel f l = parse_category l :=
  parseCatFuel_congr l.length f (l.length + 1) l le_rfl hf (Nat.lt_succ_self _)
